import Mathlib

/-!
The package commandmocker: a shallow embedding of `mocker.go`.

The Go package creates throw-away executables for tests.  Its four public
operations (`Add`, `Error`, `Ran`, `Remove`) act on three pieces of process
state: the `PATH` environment variable, the file system and the wall clock.

The embedding is sequential: one call runs at a time, which is what the
package-level mutex `pathMutex` guarantees for the read-modify-write of
`PATH`.  The state is an explicit `World` value that every operation takes
and returns.  Pure library functions that the source calls
(`strings.HasPrefix`, `strings.Index`, slicing, `path.Join`, the
`text/template` actions used by `source`) are modelled by executable Lean
functions; system calls are modelled on the `World`, with an oracle
(`World.faults`) for the failures the operating system may report.
-/

namespace Commandmocker

/-! ## Strings -/

/-- A Go string is a finite sequence of bytes; one list element stands for one
byte.  Every function below treats the elements uniformly (it only compares
them), so the 256 byte values embed as the characters with the same code. -/
abbrev GoString := List Char

/-- The byte `':'`, the separator of the entries of `PATH`. -/
def colon : Char := ':'

/-- The byte `0`, which no environment value can hold. -/
def NUL : Char := '\x00'

/-- Go `strings.HasPrefix(s, p)`: whether `s` begins with `p`. -/
def stringsHasPrefix (s p : GoString) : Bool :=
  p.isPrefixOf s

/-- The scan behind `strings.Index`: the offset of the first position at or
after `i` where `substr` begins, or `-1`. -/
def indexFrom (substr : GoString) : GoString → Nat → Int
  | [], i => if substr = [] then (i : Int) else -1
  | c :: cs, i =>
    if substr.isPrefixOf (c :: cs) then (i : Int) else indexFrom substr cs (i + 1)

/-- Go `strings.Index(s, substr)`: the index of the first instance of
`substr` in `s`, or `-1` if `substr` is not present in `s`. -/
def stringsIndex (s substr : GoString) : Int :=
  indexFrom substr s 0

/-- Go slice expression `s[:hi]`; `none` is the run-time panic
"slice bounds out of range", raised when `hi > len(s)`. -/
def sliceTo (s : GoString) (hi : Nat) : Option GoString :=
  if hi ≤ s.length then some (s.take hi) else none

/-- Go slice expression `s[lo:]`; `none` is the run-time panic
"slice bounds out of range", raised when `lo > len(s)`. -/
def sliceFrom (s : GoString) (lo : Nat) : Option GoString :=
  if lo ≤ s.length then some (s.drop lo) else none

/-- Go `strings.Split(s, sep)` for a one-byte separator: the pieces of `s`
between the separators; a string without separator is its own single piece. -/
def splitOn (sep : Char) : GoString → List GoString
  | [] => [[]]
  | c :: cs =>
    if c = sep then [] :: splitOn sep cs
    else
      match splitOn sep cs with
      | [] => [[c]]
      | e :: es => (c :: e) :: es

/-- The colon-separated entries of a search path, in order. -/
def entries (p : GoString) : List GoString :=
  splitOn colon p

/-- Whether path `p` lies under directory `root` component-wise: `p` is
`root` itself or its leading slash-separated components are those of
`root`. -/
def liesUnder (root p : GoString) : Bool :=
  (splitOn '/' root).isPrefixOf (splitOn '/' p)

/-! ## `path.Clean` and `path.Join` -/

/-- One step of `path.Clean` over the slash-separated components, the
components kept so far held in reverse: empty and `.` components are
dropped, `..` removes the last kept component when there is one to remove,
is dropped at the root, and is kept in a relative path. -/
def cleanStep (rooted : Bool) (kept : List GoString) (comp : GoString) : List GoString :=
  if comp = [] ∨ comp = ['.'] then kept
  else if comp = ['.', '.'] then
    match kept with
    | top :: rest => if top = ['.', '.'] then comp :: kept else rest
    | [] => if rooted then [] else [comp]
  else comp :: kept

/-- Go `path.Clean`: the shortest path name equivalent to `p` by purely
lexical processing. -/
def pathClean (p : GoString) : GoString :=
  if p = [] then ['.']
  else
    let rooted := p.head? == some '/'
    let kept := ((splitOn '/' p).foldl (cleanStep rooted) []).reverse
    let body := List.intercalate ['/'] kept
    if rooted then '/' :: body else if body = [] then ['.'] else body

/-- Go `path.Join(a, b)`: the non-empty elements joined with slashes, the
result cleaned; the empty string when both are empty. -/
def pathJoin (a b : GoString) : GoString :=
  if a ≠ [] then pathClean (a ++ '/' :: b)
  else if b ≠ [] then pathClean b
  else []

/-! ## Errors -/

/-- Error numbers of the system calls the package makes. -/
inductive Errno
  | ENOENT | EACCES | ENOTDIR | EISDIR | EINVAL | EIO | ENOSPC
  deriving DecidableEq, Repr

/-- A Go `error` value, as far as the package can tell them apart. -/
inductive GoError
  /-- The result of `errors.New(msg)`. -/
  | errorsNew (msg : GoString)
  /-- An error of package `os` or `syscall` wrapping an error number. -/
  | sys (e : Errno)
  /-- An error of package `text/template`. -/
  | template
  deriving DecidableEq, Repr

/-- Go `os.IsNotExist(err)`; `none` is the `nil` error. -/
def osIsNotExist : Option GoError → Bool
  | some (.sys .ENOENT) => true
  | _ => false

/-! ## The world -/

/-- What a path of the file system names. -/
inductive Node
  | dir (perm : Nat)
  | file (perm : Nat) (content : GoString)
  deriving DecidableEq, Repr

/-- The system calls whose failure the environment decides. -/
inductive Syscall
  | mkdirAll (p : GoString)
  | openFile (p : GoString)
  | write (p : GoString)
  | removeAll (p : GoString)
  deriving DecidableEq, Repr

/-- The process state the package reads and writes. -/
structure World where
  /-- The result of `os.TempDir()`. -/
  tempDir : GoString
  /-- The value of the environment variable `PATH` (empty when unset). -/
  PATH : GoString
  /-- Environment values are C strings: they hold no zero byte. -/
  PATH_nul : NUL ∉ PATH
  /-- The file system, by path. -/
  fs : GoString → Option Node
  /-- The paths on which `stat` fails for a reason other than absence. -/
  statDenied : GoString → Bool
  /-- The failures the operating system reports for the other calls. -/
  faults : Syscall → Option Errno
  /-- The formatted reading `time.Now().Format(...)` of each successive call. -/
  clock : Nat → GoString
  /-- How many times the clock has been read. -/
  ticks : Nat

/-- The result of a call that may abort with a run-time panic. -/
inductive Outcome (α : Type)
  | returned (a : α) (w : World)
  | panicked (w : World)

/-- Go `os.TempDir()`. -/
def osTempDir (w : World) : GoString :=
  w.tempDir

/-- Go `os.Getenv("PATH")`. -/
def osGetenvPATH (w : World) : GoString :=
  w.PATH

/-- Go `os.Setenv("PATH", value)`: fails with `EINVAL`, changing nothing,
when the value holds a zero byte; otherwise sets the variable. -/
def osSetenvPATH (value : GoString) (w : World) : Option GoError × World :=
  if h : NUL ∈ value then (some (.sys .EINVAL), w)
  else (none, { w with PATH := value, PATH_nul := h })

/-- Go `os.Stat(p)`, its error result: `nil` when `p` names something,
`ENOENT` when it names nothing, another error when the look-up itself
fails. -/
def osStat (p : GoString) (w : World) : Option GoError :=
  if w.statDenied p then some (.sys .EACCES)
  else
    match w.fs p with
    | some _ => none
    | none => some (.sys .ENOENT)

/-- The proper ancestors of a cleaned path: `/`, `/tmp` for `/tmp/x`. -/
def ancestors (p : GoString) : List GoString :=
  (List.range p.length).filterMap fun i =>
    if p.get? i = some '/' then some (if i = 0 then ['/'] else p.take i) else none

/-- Whether a look-up result is a regular file. -/
def isFile : Option Node → Bool
  | some (.file _ _) => true
  | _ => false

/-- Whether a look-up result is a directory. -/
def isDir : Option Node → Bool
  | some (.dir _) => true
  | _ => false

/-- Go `os.MkdirAll(p, perm)`: nothing to do when `p` is a directory, an
error when `p` or one of its ancestors is a file, otherwise `p` and its
missing ancestors become directories. -/
def osMkdirAll (p : GoString) (perm : Nat) (w : World) : Option GoError × World :=
  match w.faults (.mkdirAll p) with
  | some e => (some (.sys e), w)
  | none =>
    match w.fs p with
    | some (.dir _) => (none, w)
    | some (.file _ _) => (some (.sys .ENOTDIR), w)
    | none =>
      if (ancestors p).any (fun a => isFile (w.fs a)) then (some (.sys .ENOTDIR), w)
      else
        (none, { w with fs := fun q =>
          if (q = p ∨ q ∈ ancestors p) ∧ w.fs q = none then some (.dir perm) else w.fs q })

/-- Go `os.OpenFile(p, O_WRONLY|O_CREAT|O_TRUNC, perm)`: an error on a
directory, otherwise the file exists and is empty afterwards. -/
def osOpenFile (p : GoString) (perm : Nat) (w : World) : Option GoError × World :=
  match w.faults (.openFile p) with
  | some e => (some (.sys e), w)
  | none =>
    match w.fs p with
    | some (.dir _) => (some (.sys .EISDIR), w)
    | some (.file perm0 _) =>
      (none, { w with fs := fun q => if q = p then some (.file perm0 []) else w.fs q })
    | none =>
      (none, { w with fs := fun q => if q = p then some (.file perm []) else w.fs q })

/-- Writing `content` to the file opened at `p`. -/
def osWrite (p : GoString) (content : GoString) (w : World) : Option GoError × World :=
  match w.faults (.write p) with
  | some e => (some (.sys e), w)
  | none =>
    match w.fs p with
    | some (.file perm0 old) =>
      (none, { w with fs := fun q => if q = p then some (.file perm0 (old ++ content)) else w.fs q })
    | _ => (some (.sys .EINVAL), w)

/-- Go `os.RemoveAll(p)`: removes `p` and everything below it; no error when
`p` does not exist. -/
def osRemoveAll (p : GoString) (w : World) : Option GoError × World :=
  match w.faults (.removeAll p) with
  | some e => (some (.sys e), w)
  | none =>
    (none, { w with fs := fun q =>
      if q = p ∨ (p ++ ['/']).isPrefixOf q then none else w.fs q })

/-! ## The script template (`text/template`) -/

/-- The template text of the generated script, the package variable
`source`, line by line; braces are written as the escapes `\x7b` and
`\x7d`. -/
def source : GoString :=
  ("#!/bin/bash -e\n" ++
   "\n" ++
   "output=\"\x7b\x7b.output\x7d\x7d\"\n" ++
   "\x7b\x7bif .status\x7d\x7d\n" ++
   "echo -n \"$\x7boutput\x7d\" >&2\n" ++
   "\x7b\x7belse\x7d\x7d\n" ++
   "echo -n \"$\x7boutput\x7d\"\n" ++
   "\x7b\x7bend\x7d\x7d\n" ++
   "touch $(dirname $\x7b0\x7d)/.ran\n" ++
   "exit \x7b\x7b.status\x7d\x7d\n").toList

/-- A value of the parameter map handed to the template. -/
inductive Value
  | str (s : GoString)
  | int (i : Int)
  deriving DecidableEq, Repr

/-- The pieces of a template: literal text and the actions between the
delimiters `{{` and `}}`. -/
inductive Tok
  | text (s : GoString)
  | field (key : GoString)
  | ifField (key : GoString)
  | elseTok
  | endTok
  | bad
  deriving DecidableEq, Repr

/-- The action written between a pair of delimiters. -/
def classify (a : GoString) : Tok :=
  if a = "else".toList then .elseTok
  else if a = "end".toList then .endTok
  else if "if .".toList.isPrefixOf a then .ifField (a.drop 4)
  else if ".".toList.isPrefixOf a then .field (a.drop 1)
  else .bad

/-- Cutting a template text at its delimiters; `acc` holds, reversed, the
piece being read and `inAction` tells whether it lies between delimiters. -/
def lexTemplate : GoString → Bool → GoString → List Tok
  | [], inAction, acc => if inAction then [.bad] else [.text acc.reverse]
  | [c], inAction, acc => if inAction then [.bad] else [.text (c :: acc).reverse]
  | c :: d :: rest, inAction, acc =>
    if !inAction && c = '\x7b' && d = '\x7b' then
      .text acc.reverse :: lexTemplate rest true []
    else if inAction && c = '\x7d' && d = '\x7d' then
      classify acc.reverse :: lexTemplate rest false []
    else lexTemplate (d :: rest) inAction (c :: acc)

/-- Whether the `if`/`else`/`end` actions nest properly; `depth` counts the
open `if` actions. -/
def wellNested : List Tok → Nat → Bool
  | [], depth => depth = 0
  | .text _ :: ts, depth => wellNested ts depth
  | .field _ :: ts, depth => wellNested ts depth
  | .ifField _ :: ts, depth => wellNested ts (depth + 1)
  | .elseTok :: ts, depth => depth ≠ 0 && wellNested ts depth
  | .endTok :: ts, depth => depth ≠ 0 && wellNested ts (depth - 1)
  | .bad :: _, _ => false

/-- Go `template.New(name).Parse(text)`; `none` is a parse error. -/
def templateParse (text : GoString) : Option (List Tok) :=
  let toks := lexTemplate text false []
  if wellNested toks 0 then some toks else none

/-- How the template prints a value: a string verbatim, an integer in
decimal. -/
def printValue : Option Value → GoString
  | some (.str s) => s
  | some (.int (.ofNat n)) => Nat.toDigits 10 n
  | some (.int (.negSucc n)) => '-' :: Nat.toDigits 10 (n + 1)
  | none => "<no value>".toList

/-- The truth of a value in an `if` action: a non-empty string, a non-zero
integer. -/
def truth : Option Value → Bool
  | some (.str s) => s ≠ []
  | some (.int i) => i ≠ 0
  | none => false

/-- What an action inside the enclosing `if` actions emits: its text when all
their conditions hold, nothing otherwise. -/
def emit (conds : List Bool) (s : GoString) : GoString :=
  if conds.all id then s else []

/-- Running a template: `conds` holds the conditions of the enclosing `if`
actions, innermost first, and `out` what has been written so far. -/
def execute (param : GoString → Option Value) : List Tok → List Bool → GoString → Option GoString
  | [], _, out => some out
  | .text s :: ts, conds, out => execute param ts conds (out ++ emit conds s)
  | .field key :: ts, conds, out =>
    execute param ts conds (out ++ emit conds (printValue (param key)))
  | .ifField key :: ts, conds, out => execute param ts (truth (param key) :: conds) out
  | .elseTok :: ts, b :: conds, out => execute param ts ((!b) :: conds) out
  | .elseTok :: _, [], _ => none
  | .endTok :: ts, _ :: conds, out => execute param ts conds out
  | .endTok :: _, [], _ => none
  | .bad :: _, _, _ => none

/-- The parameter map built in `add`:
`map[string]interface{}{"output": output, "status": status}`. -/
def param (output : GoString) (status : Int) (key : GoString) : Option Value :=
  if key = "output".toList then some (.str output)
  else if key = "status".toList then some (.int status)
  else none

/-- The script that `add` renders: `source` parsed and executed with the
parameter map; `none` is a template error. -/
def renderScript (output : GoString) (status : Int) : Option GoString :=
  match templateParse source with
  | none => none
  | some t => execute (param output status) t [] []

/-! ## The package: `add`, `Add`, `Error`, `Ran`, `Remove` -/

/-- The expression
`path.Join(os.TempDir(), "commandmocker+"+time.Now().Format(...))`: it reads
the clock once. -/
def freshName (w : World) : GoString × World :=
  (pathJoin (osTempDir w) ("commandmocker+".toList ++ w.clock w.ticks),
   { w with ticks := w.ticks + 1 })

/-- The loop `for !os.IsNotExist(err) { ... }` of `add`, entered with the
current candidate and the error of its `stat`; `none` when the loop is still
running after `fuel` iterations. -/
def statLoop : Nat → GoString → Option GoError → World → Option (GoString × World)
  | 0, tempdir, err, w => if osIsNotExist err then some (tempdir, w) else none
  | fuel + 1, tempdir, err, w =>
    if osIsNotExist err then some (tempdir, w)
    else
      let next := freshName w
      statLoop fuel next.1 (osStat next.1 next.2) next.2

/-- What `add` returns, with the world it leaves. -/
structure AddReturn where
  tempdir : GoString
  err : Option GoError
  world : World

/-- The function `add(name, output, status)`; `none` when its loop is still
running after `fuel` iterations. -/
def add (fuel : Nat) (name output : GoString) (status : Int) (w : World) : Option AddReturn :=
  let first := freshName w
  match statLoop fuel first.1 (osStat first.1 first.2) first.2 with
  | none => none
  | some (tempdir, w1) =>
    match osMkdirAll tempdir 0o777 w1 with
    | (some err, w2) => some ⟨tempdir, some err, w2⟩
    | (none, w2) =>
      let f := pathJoin tempdir name
      match osOpenFile f 0o755 w2 with
      | (some err, w3) => some ⟨tempdir, some err, w3⟩
      | (none, w3) =>
        match templateParse source with
        | none => some ⟨tempdir, some .template, w3⟩
        | some t =>
          match execute (param output status) t [] [] with
          | none => some ⟨tempdir, some .template, w3⟩
          | some script =>
            match osWrite f script w3 with
            | (some err, w4) => some ⟨tempdir, some err, w4⟩
            | (none, w4) =>
              let path := osGetenvPATH w4
              let path := tempdir ++ colon :: path
              match osSetenvPATH path w4 with
              | (err, w5) => some ⟨tempdir, err, w5⟩

/-- The function `Add(name, output)`. -/
def Add (fuel : Nat) (name output : GoString) (w : World) : Option AddReturn :=
  add fuel name output 0 w

/-- The function `Error(name, output, status)`. -/
def Error (fuel : Nat) (name output : GoString) (status : Int) (w : World) : Option AddReturn :=
  add fuel name output status w

/-- The function `Ran(tempdir)`, with the world it leaves. -/
def Ran (tempdir : GoString) (w : World) : Bool × World :=
  let p := pathJoin tempdir ".ran".toList
  let err := osStat p w
  (err == none || !osIsNotExist err, w)

/-- The error of the first guard of `Remove`. -/
def notTemporary (tempdir : GoString) : GoError :=
  .errorsNew ("Remove can only remove temporary directories, tryied to remove ".toList ++ tempdir)

/-- The error of the second guard of `Remove`. -/
def notInPath (tempdir : GoString) : GoError :=
  .errorsNew (tempdir ++ " is not in $PATH".toList)

/-- The function `Remove(tempdir)`. -/
def Remove (tempdir : GoString) (w : World) : Outcome (Option GoError) :=
  if !stringsHasPrefix tempdir (osTempDir w) then
    .returned (some (notTemporary tempdir)) w
  else
    let path := osGetenvPATH w
    let index := stringsIndex path tempdir
    if index < 0 then
      .returned (some (notInPath tempdir)) w
    else
      match sliceTo path index.toNat, sliceFrom path (index.toNat + tempdir.length + 1) with
      | some front, some back =>
        match osSetenvPATH (front ++ back) w with
        | (some err, w1) => .returned (some err) w1
        | (none, w1) =>
          match osRemoveAll tempdir w1 with
          | (err, w2) => .returned err w2
      | _, _ => .panicked w

/-! ## Reading an outcome -/

/-- The world an outcome leaves. -/
def Outcome.world {α : Type} : Outcome α → World
  | .returned _ w => w
  | .panicked w => w

/-- The value an outcome returns; `none` when the call panicked. -/
def Outcome.result {α : Type} : Outcome α → Option α
  | .returned a _ => some a
  | .panicked _ => none

/-! ## Notions of the specification -/

/-- What no file-system call touches. -/
def sameEnv (w1 w : World) : Prop :=
  w1.PATH = w.PATH ∧ w1.tempDir = w.tempDir ∧ w1.statDenied = w.statDenied ∧
    w1.faults = w.faults

/-- The lines of the generated script as the specification lists them: the
interpreter line, the assignment of the output text, one `echo` line (to
standard error when the status is not zero), the `touch` line and the `exit`
line with the status in decimal; the template leaves an empty line around
the `echo` line and ends the text with a newline. -/
def scriptLines (output : GoString) (status : Int) : List GoString :=
  [ "#!/bin/bash -e".toList,
    [],
    "output=\"".toList ++ output ++ "\"".toList,
    [],
    if status ≠ 0 then "echo -n \"$\x7boutput\x7d\" >&2".toList
    else "echo -n \"$\x7boutput\x7d\"".toList,
    [],
    "touch $(dirname $\x7b0\x7d)/.ran".toList,
    "exit ".toList ++ (toString status).toList,
    [] ]

/-! ## Sample worlds -/

/-- A file system holding the directories `/`, `/tmp`, `/tmp/x` and
`/tmpfoo`. -/
def sampleFs (q : GoString) : Option Node :=
  if q = "/".toList ∨ q = "/tmp".toList ∨ q = "/tmp/x".toList ∨ q = "/tmpfoo".toList then
    some (.dir 0o777)
  else none

/-- A clock read twice within each second: its successive formatted
readings are "0", "0", "1", "1", "2", ... -/
def sampleClock (n : Nat) : GoString :=
  Nat.toDigits 10 (n / 2)

/-- A world with temporary root `/tmp`, the sample file system and clock,
no failing system call, and the given value of `PATH`. -/
def sampleWorld (path : GoString) (h : NUL ∉ path) : World where
  tempDir := "/tmp".toList
  PATH := path
  PATH_nul := h
  fs := sampleFs
  statDenied := fun _ => false
  faults := fun _ => none
  clock := sampleClock
  ticks := 0

/-- The sample world with `PATH=/usr/bin:/bin`. -/
def worldPlain : World :=
  sampleWorld "/usr/bin:/bin".toList (by decide)

/-- The sample world with `PATH=/tmp/x:/tmp/x:/usr/bin`. -/
def worldTwice : World :=
  sampleWorld "/tmp/x:/tmp/x:/usr/bin".toList (by decide)

/-- The sample world with `PATH=/usr/bin:/tmp/x`. -/
def worldLast : World :=
  sampleWorld "/usr/bin:/tmp/x".toList (by decide)

/-- The sample world with `PATH=/tmpfoo:/usr/bin`. -/
def worldSibling : World :=
  sampleWorld "/tmpfoo:/usr/bin".toList (by decide)

/-- What `Add("git", "fake output")` returns in `worldPlain`. -/
def gitAdded : AddReturn :=
  (Add 1 "git".toList "fake output".toList worldPlain).getD ⟨[], none, worldPlain⟩

/-- What a second `Add("git", "fake output")` returns after `gitAdded`. -/
def gitAddedAgain : AddReturn :=
  (Add 1 "git".toList "fake output".toList gitAdded.world).getD ⟨[], none, worldPlain⟩

/-- The sample world with `PATH=/usr/bin:/tmp/x:/bin`. -/
def worldMiddle : World :=
  sampleWorld "/usr/bin:/tmp/x:/bin".toList (by decide)

/-! ## Lemmas on strings -/

theorem isPrefixOf_append_self (d t : GoString) : d.isPrefixOf (d ++ t) = true := by
  rw [List.isPrefixOf_iff_prefix]
  exact List.prefix_append d t

theorem indexFrom_eq_or_le (substr : GoString) (s : GoString) (i : Nat) :
    indexFrom substr s i = -1 ∨ (i : Int) ≤ indexFrom substr s i := by
  induction s generalizing i with
  | nil =>
    unfold indexFrom
    split
    · right; exact le_refl _
    · left; rfl
  | cons c cs ih =>
    unfold indexFrom
    split
    · right; exact le_refl _
    · rcases ih (i + 1) with h | h
      · left; exact h
      · right; push_cast at h; omega

/-- A non-negative result of the scan is the offset of an occurrence. -/
theorem indexFrom_occurrence (substr : GoString) (s : GoString) (i : Nat)
    (h : 0 ≤ indexFrom substr s i) :
    ∃ a t, s = a ++ substr ++ t ∧ indexFrom substr s i = ((i + a.length : Nat) : Int) := by
  induction s generalizing i with
  | nil =>
    unfold indexFrom at h ⊢
    split at h
    · rename_i hs
      refine ⟨[], [], ?_, ?_⟩
      · simp [hs]
      · simp [hs]
    · omega
  | cons c cs ih =>
    unfold indexFrom at h ⊢
    split
    · rename_i hp
      rw [List.isPrefixOf_iff_prefix] at hp
      obtain ⟨t, ht⟩ := hp
      exact ⟨[], t, by simp [ht], by simp⟩
    · rename_i hp
      rw [if_neg hp] at h
      obtain ⟨a, t, hs, hi⟩ := ih (i + 1) h
      refine ⟨c :: a, t, by simp [hs], ?_⟩
      rw [hi]
      simp only [List.length_cons]
      congr 1
      omega

/-- The scan finds nothing only when there is no occurrence. -/
theorem indexFrom_of_no_occurrence (substr : GoString) (s : GoString) (i : Nat)
    (h : ¬ ∃ a t, s = a ++ substr ++ t) : indexFrom substr s i = -1 := by
  rcases indexFrom_eq_or_le substr s i with h1 | h1
  · exact h1
  · exfalso
    have h0 : 0 ≤ indexFrom substr s i := le_trans (Int.ofNat_nonneg i) h1
    obtain ⟨a, t, hs, _⟩ := indexFrom_occurrence substr s i h0
    exact h ⟨a, t, hs⟩

/-- The scan stops at or before every occurrence. -/
theorem indexFrom_le_occurrence (substr : GoString) (a t : GoString) (i : Nat) :
    indexFrom substr (a ++ substr ++ t) i ≤ ((i + a.length : Nat) : Int) ∧
      0 ≤ indexFrom substr (a ++ substr ++ t) i := by
  induction a generalizing i with
  | nil =>
    have hp : substr.isPrefixOf (substr ++ t) = true := isPrefixOf_append_self substr t
    cases hs : substr ++ t with
    | nil =>
      obtain ⟨h1, h2⟩ := List.append_eq_nil.mp hs
      subst h1 h2
      simp [indexFrom]
    | cons c cs =>
      rw [hs] at hp
      simp [indexFrom, hs, hp]
  | cons c cs ih =>
    simp only [List.cons_append, List.length_cons]
    unfold indexFrom
    split
    · constructor
      · push_cast; omega
      · exact Int.ofNat_nonneg i
    · obtain ⟨h1, h2⟩ := ih (i + 1)
      simp only [List.append_assoc] at h1 h2 ⊢
      constructor
      · have : i + 1 + cs.length = i + (cs.length + 1) := by omega
        rw [this] at h1
        exact h1
      · exact h2

theorem stringsIndex_prepended (d t : GoString) : stringsIndex (d ++ colon :: t) d = 0 := by
  unfold stringsIndex
  have hp : d.isPrefixOf (d ++ colon :: t) = true := isPrefixOf_append_self d _
  cases hs : d ++ colon :: t with
  | nil => simp at hs
  | cons c cs =>
    rw [hs] at hp
    simp [indexFrom, hp]

theorem splitOn_ne_nil (sep : Char) (s : GoString) : splitOn sep s ≠ [] := by
  cases s with
  | nil => simp [splitOn]
  | cons c cs =>
    unfold splitOn
    split
    · simp
    · split <;> simp

theorem splitOn_of_not_mem (sep : Char) (s : GoString) (h : sep ∉ s) :
    splitOn sep s = [s] := by
  induction s with
  | nil => rfl
  | cons c cs ih =>
    have hc : c ≠ sep := fun e => h (by simp [e])
    have hcs : sep ∉ cs := fun e => h (List.mem_cons_of_mem _ e)
    unfold splitOn
    rw [if_neg hc, ih hcs]

theorem splitOn_cons_sep (sep : Char) (cs : GoString) :
    splitOn sep (sep :: cs) = [] :: splitOn sep cs := by
  simp [splitOn]

theorem splitOn_cons_ne (sep c : Char) (cs : GoString) (hc : c ≠ sep) :
    splitOn sep (c :: cs) = (c :: (splitOn sep cs).headD []) :: (splitOn sep cs).tail := by
  rw [splitOn, if_neg hc]
  cases h1 : splitOn sep cs with
  | nil => exact absurd h1 (splitOn_ne_nil sep cs)
  | cons e es => rfl

theorem splitOn_append_sep (sep : Char) (a b : GoString) :
    splitOn sep (a ++ sep :: b) = splitOn sep a ++ splitOn sep b := by
  induction a with
  | nil => simp [splitOn_cons_sep, splitOn]
  | cons c cs ih =>
    by_cases hc : c = sep
    · subst hc
      simp [splitOn_cons_sep, ih]
    · simp only [List.cons_append]
      rw [splitOn_cons_ne sep c _ hc, splitOn_cons_ne sep c _ hc, ih]
      cases h1 : splitOn sep cs with
      | nil => exact absurd h1 (splitOn_ne_nil sep cs)
      | cons e es => simp

theorem splitOn_length (sep : Char) (s : GoString) :
    (splitOn sep s).length = s.count sep + 1 := by
  induction s with
  | nil => rfl
  | cons c cs ih =>
    by_cases hc : c = sep
    · simp [splitOn, hc, ih]
    · unfold splitOn
      rw [if_neg hc]
      cases h1 : splitOn sep cs with
      | nil => exact absurd h1 (splitOn_ne_nil sep cs)
      | cons e es =>
        rw [h1] at ih
        have : List.count sep (c :: cs) = List.count sep cs := by
          rw [List.count_cons]
          simp [hc]
        simp only [List.length_cons] at ih ⊢
        omega

/-- No piece of a split holds the separator. -/
theorem not_mem_of_mem_splitOn (sep : Char) (s e : GoString) (h : e ∈ splitOn sep s) :
    sep ∉ e := by
  induction s generalizing e with
  | nil =>
    simp [splitOn] at h
    simp [h]
  | cons c cs ih =>
    unfold splitOn at h
    by_cases hc : c = sep
    · rw [if_pos hc] at h
      rcases List.mem_cons.mp h with h | h
      · simp [h]
      · exact ih e h
    · rw [if_neg hc] at h
      cases h1 : splitOn sep cs with
      | nil => exact absurd h1 (splitOn_ne_nil sep cs)
      | cons x xs =>
        rw [h1] at h
        rcases List.mem_cons.mp h with h | h
        · subst h
          have hx : sep ∉ x := ih x (by simp [h1])
          intro hm
          rcases List.mem_cons.mp hm with hm | hm
          · exact hc hm.symm
          · exact hx hm
        · exact ih e (by simp [h1, h])

/-! ## Lemmas on the system calls -/

theorem osSetenvPATH_ok (value : GoString) (w : World) (h : NUL ∉ value) :
    osSetenvPATH value w = (none, { w with PATH := value, PATH_nul := h }) := by
  simp [osSetenvPATH, h]

theorem osSetenvPATH_success (value : GoString) (w w1 : World)
    (h : osSetenvPATH value w = (none, w1)) : w1.PATH = value := by
  unfold osSetenvPATH at h
  split at h
  · simp at h
  · simp only [Prod.mk.injEq, true_and] at h
    rw [← h]

theorem osRemoveAll_PATH (p : GoString) (w : World) : (osRemoveAll p w).2.PATH = w.PATH := by
  unfold osRemoveAll
  split <;> rfl

theorem osRemoveAll_err (p : GoString) (w : World) (msg : GoString) :
    (osRemoveAll p w).1 ≠ some (.errorsNew msg) := by
  unfold osRemoveAll
  split <;> simp

theorem sameEnv_trans {a b c : World} (h1 : sameEnv a b) (h2 : sameEnv b c) : sameEnv a c :=
  ⟨h1.1.trans h2.1, h1.2.1.trans h2.2.1, h1.2.2.1.trans h2.2.2.1, h1.2.2.2.trans h2.2.2.2⟩

theorem osMkdirAll_frame (p : GoString) (perm : Nat) (w : World) :
    sameEnv (osMkdirAll p perm w).2 w := by
  unfold osMkdirAll
  repeat' split
  all_goals exact ⟨rfl, rfl, rfl, rfl⟩

theorem osOpenFile_frame (p : GoString) (perm : Nat) (w : World) :
    sameEnv (osOpenFile p perm w).2 w := by
  unfold osOpenFile
  repeat' split
  all_goals exact ⟨rfl, rfl, rfl, rfl⟩

theorem osWrite_frame (p content : GoString) (w : World) :
    sameEnv (osWrite p content w).2 w := by
  unfold osWrite
  repeat' split
  all_goals exact ⟨rfl, rfl, rfl, rfl⟩

theorem osSetenvPATH_frame (value : GoString) (w : World) :
    (osSetenvPATH value w).2.fs = w.fs ∧ (osSetenvPATH value w).2.tempDir = w.tempDir := by
  unfold osSetenvPATH
  split <;> exact ⟨rfl, rfl⟩

/-- A successful `MkdirAll` leaves a directory at its path and keeps what
was there. -/
theorem osMkdirAll_fs (p : GoString) (perm : Nat) (w w1 : World)
    (h : osMkdirAll p perm w = (none, w1)) :
    isDir (w1.fs p) = true ∧ ∀ q, isDir (w.fs q) = true → isDir (w1.fs q) = true := by
  unfold osMkdirAll at h
  split at h
  · simp at h
  · split at h
    · rename_i hp
      simp only [Prod.mk.injEq, true_and] at h
      subst h
      exact ⟨by simp [hp, isDir], fun q hq => hq⟩
    · simp at h
    · rename_i hp
      split at h
      · simp at h
      · simp only [Prod.mk.injEq, true_and] at h
        subst h
        constructor
        · simp [hp, isDir]
        · intro q hq
          simp only
          split
          · rfl
          · exact hq

/-- A successful `OpenFile` leaves an empty file at its path, which was no
directory, and keeps every directory. -/
theorem osOpenFile_fs (p : GoString) (perm : Nat) (w w1 : World)
    (h : osOpenFile p perm w = (none, w1)) :
    (∃ perm1, w1.fs p = some (.file perm1 [])) ∧
      ∀ q, isDir (w.fs q) = true → isDir (w1.fs q) = true := by
  unfold osOpenFile at h
  split at h
  · simp at h
  · split at h
    · simp at h
    · rename_i perm0 old hp
      simp only [Prod.mk.injEq, true_and] at h
      subst h
      refine ⟨⟨perm0, by simp⟩, ?_⟩
      intro q hq
      simp only
      split
      · rename_i hqp
        rw [hqp, hp] at hq
        simp [isDir] at hq
      · exact hq
    · rename_i hp
      simp only [Prod.mk.injEq, true_and] at h
      subst h
      refine ⟨⟨perm, by simp⟩, ?_⟩
      intro q hq
      simp only
      split
      · rename_i hqp
        rw [hqp, hp] at hq
        simp [isDir] at hq
      · exact hq

/-- A successful write appends to the file at its path and keeps every
directory. -/
theorem osWrite_fs (p content old : GoString) (perm0 : Nat) (w w1 : World)
    (h : osWrite p content w = (none, w1)) (hp : w.fs p = some (.file perm0 old)) :
    w1.fs p = some (.file perm0 (old ++ content)) ∧
      ∀ q, isDir (w.fs q) = true → isDir (w1.fs q) = true := by
  unfold osWrite at h
  split at h
  · simp at h
  · rw [hp] at h
    simp only [Prod.mk.injEq, true_and] at h
    subst h
    refine ⟨by simp, ?_⟩
    intro q hq
    simp only
    split
    · rename_i hqp
      rw [hqp, hp] at hq
      simp [isDir] at hq
    · exact hq

/-! ## Lemmas on `Remove` -/

/-- The first guard: a `tempdir` that does not begin with the temporary root
is refused and nothing changes. -/
theorem Remove_refused (tempdir : GoString) (w : World)
    (h : stringsHasPrefix tempdir (osTempDir w) = false) :
    Remove tempdir w = .returned (some (notTemporary tempdir)) w := by
  simp [Remove, h]

/-- The splice: when the first occurrence of `tempdir` in `PATH` is followed
by at least one byte, `Remove` passes both guards and leaves in `PATH` what
stood before the occurrence and what stood after that byte. -/
theorem Remove_spliced (tempdir a rest : GoString) (c : Char) (w : World)
    (hv : stringsHasPrefix tempdir (osTempDir w) = true)
    (hp : w.PATH = a ++ tempdir ++ c :: rest)
    (hi : stringsIndex w.PATH tempdir = (a.length : Int)) :
    ∃ err w1, Remove tempdir w = .returned err w1 ∧ w1.PATH = a ++ rest ∧
      w1.tempDir = w.tempDir ∧
      err ≠ some (notTemporary tempdir) ∧ err ≠ some (notInPath tempdir) := by
  have hnul : NUL ∉ a ++ rest := by
    intro hm
    apply w.PATH_nul
    rw [hp]
    rcases List.mem_append.mp hm with hm | hm
    · simp [hm]
    · simp [hm]
  have h1 : sliceTo w.PATH a.length = some a := by
    simp [sliceTo, hp]
  have h2 : sliceFrom w.PATH (a.length + tempdir.length + 1) = some rest := by
    have hd : List.drop (a.length + tempdir.length + 1) (a ++ tempdir ++ c :: rest) = rest := by
      have hl : a.length + tempdir.length + 1 = (a ++ tempdir ++ [c]).length := by
        simp only [List.length_append, List.length_singleton]
      rw [hl]
      have : a ++ tempdir ++ c :: rest = (a ++ tempdir ++ [c]) ++ rest := by simp
      rw [this, List.drop_left]
    simp only [sliceFrom, hp, hd]
    simp
    omega
  refine ⟨(osRemoveAll tempdir { w with PATH := a ++ rest, PATH_nul := hnul }).1,
    (osRemoveAll tempdir { w with PATH := a ++ rest, PATH_nul := hnul }).2, ?_, ?_, ?_, ?_, ?_⟩
  · unfold Remove
    simp only [hv, osGetenvPATH, hi]
    simp only [Bool.not_true, Bool.false_eq_true, if_false, Int.toNat_ofNat, h1, h2]
    rw [if_neg (by omega)]
    simp only [osSetenvPATH_ok _ _ hnul]
  · rw [osRemoveAll_PATH]
  · unfold osRemoveAll
    split <;> rfl
  · exact osRemoveAll_err _ _ _
  · exact osRemoveAll_err _ _ _

/-- Whenever `Remove` returns `nil`, it passed the first guard. -/
theorem Remove_nil_valid (tempdir : GoString) (w w1 : World)
    (h : Remove tempdir w = .returned none w1) :
    stringsHasPrefix tempdir (osTempDir w) = true := by
  by_contra hv
  rw [Bool.not_eq_true] at hv
  rw [Remove_refused tempdir w hv] at h
  simp at h

/-- When the first occurrence of `tempdir` ends `PATH`, the second slice
expression of `Remove` is out of range. -/
theorem Remove_panics (tempdir a : GoString) (w : World)
    (hv : stringsHasPrefix tempdir (osTempDir w) = true)
    (hp : w.PATH = a ++ tempdir)
    (hi : stringsIndex w.PATH tempdir = (a.length : Int)) :
    Remove tempdir w = .panicked w := by
  have h2 : sliceFrom w.PATH (a.length + tempdir.length + 1) = none := by
    simp [sliceFrom, hp]
  unfold Remove
  simp only [hv, osGetenvPATH, hi]
  simp only [Bool.not_true, Bool.false_eq_true, if_false, Int.toNat_ofNat, h2]
  rw [if_neg (by omega)]
  split
  · rename_i h
    simp at h
  · rfl

/-- Deleting a whole entry that is followed by a separator deletes it from
the list of entries. -/
theorem entries_splice (a d rest : GoString) (ha : a = [] ∨ a.getLast? = some colon)
    (hd : colon ∉ d) :
    (entries (a ++ d ++ colon :: rest))[a.count colon]? = some d ∧
      entries (a ++ rest) = (entries (a ++ d ++ colon :: rest)).eraseIdx (a.count colon) := by
  rcases ha with ha | ha
  · subst ha
    simp only [List.nil_append, List.count_nil, entries]
    rw [splitOn_append_sep, splitOn_of_not_mem colon d hd]
    simp
  · obtain ⟨b, hb⟩ : ∃ b, a = b ++ [colon] := by
      rcases List.eq_nil_or_concat a with h | ⟨b, x, h⟩
      · simp [h] at ha
      · refine ⟨b, ?_⟩
        rw [h] at ha ⊢
        simp only [List.concat_eq_append, List.getLast?_append, List.getLast?_singleton] at ha
        have hx : x = colon := by
          simpa [Option.or] using ha
        simp [hx]
    subst hb
    have hlen : (b ++ [colon]).count colon = (splitOn colon b).length := by
      rw [splitOn_length]
      simp
    have e1 : b ++ [colon] ++ d ++ colon :: rest = b ++ colon :: (d ++ colon :: rest) := by simp
    have e2 : b ++ [colon] ++ rest = b ++ colon :: rest := by simp
    simp only [entries]
    rw [hlen, e1, e2, splitOn_append_sep, splitOn_append_sep, splitOn_append_sep,
      splitOn_of_not_mem colon d hd]
    constructor
    · rw [List.getElem?_append_right (le_refl _)]
      simp
    · rw [List.eraseIdx_append_of_length_le (le_refl _)]
      simp

/-! ## Lemmas on `add` -/

/-- The loop of `add` changes nothing but the number of clock readings, and
it exits on a candidate that `stat` reports absent. -/
theorem statLoop_exit (fuel : Nat) (t : GoString) (w : World) (t1 : GoString) (w1 : World)
    (h : statLoop fuel t (osStat t w) w = some (t1, w1)) :
    osStat t1 w = some (.sys .ENOENT) ∧ w1.PATH = w.PATH ∧ w1.fs = w.fs ∧
      w1.statDenied = w.statDenied ∧ w1.faults = w.faults ∧ w1.tempDir = w.tempDir := by
  have key : ∀ e : Option GoError, osIsNotExist e = true → e = some (.sys .ENOENT) := by
    intro e he
    unfold osIsNotExist at he
    split at he
    · rfl
    · simp at he
  induction fuel generalizing t w with
  | zero =>
    unfold statLoop at h
    split at h
    · rename_i he
      simp only [Option.some.injEq, Prod.mk.injEq] at h
      obtain ⟨h1, h2⟩ := h
      subst h1 h2
      exact ⟨key _ he, rfl, rfl, rfl, rfl, rfl⟩
    · simp at h
  | succ n ih =>
    unfold statLoop at h
    split at h
    · rename_i he
      simp only [Option.some.injEq, Prod.mk.injEq] at h
      obtain ⟨h1, h2⟩ := h
      subst h1 h2
      exact ⟨key _ he, rfl, rfl, rfl, rfl, rfl⟩
    · obtain ⟨g1, g2, g3, g4, g5, g6⟩ := ih (freshName w).1 (freshName w).2 h
      exact ⟨g1, g2, g3, g4, g5, g6⟩

/-- The steps a successful `add` went through. -/
theorem add_inv (fuel : Nat) (name output : GoString) (status : Int) (w : World)
    (r : AddReturn) (h : add fuel name output status w = some r) (hr : r.err = none) :
    ∃ w1 w2 w3 w4 script,
      statLoop fuel (freshName w).1 (osStat (freshName w).1 (freshName w).2) (freshName w).2
        = some (r.tempdir, w1) ∧
      osMkdirAll r.tempdir 0o777 w1 = (none, w2) ∧
      osOpenFile (pathJoin r.tempdir name) 0o755 w2 = (none, w3) ∧
      renderScript output status = some script ∧
      osWrite (pathJoin r.tempdir name) script w3 = (none, w4) ∧
      osSetenvPATH (r.tempdir ++ colon :: w4.PATH) w4 = (none, r.world) := by
  unfold add at h
  simp only at h
  split at h
  · simp at h
  · rename_i tempdir w1 hloop
    split at h
    · simp only [Option.some.injEq] at h
      subst h
      simp at hr
    · rename_i w2 hmk
      split at h
      · simp only [Option.some.injEq] at h
        subst h
        simp at hr
      · rename_i w3 hopen
        split at h
        · simp only [Option.some.injEq] at h
          subst h
          simp at hr
        · rename_i t hparse
          split at h
          · simp only [Option.some.injEq] at h
            subst h
            simp at hr
          · rename_i script hexec
            split at h
            · simp only [Option.some.injEq] at h
              subst h
              simp at hr
            · rename_i w4 hwrite
              simp only [Option.some.injEq] at h
              subst h
              simp only at hr
              refine ⟨w1, w2, w3, w4, script, hloop, hmk, hopen, ?_, hwrite, ?_⟩
              · simp only [renderScript, hparse, hexec]
              · simp only [osGetenvPATH]
                apply Prod.ext
                · exact hr
                · rfl

/-- A successful `add` puts its directory and a separator in front of
`PATH`; its directory was absent before the call and is a directory after
it, next to every directory there was; and the file it wrote holds the
rendered script. -/
theorem add_success (fuel : Nat) (name output : GoString) (status : Int) (w : World)
    (r : AddReturn) (h : add fuel name output status w = some r) (hr : r.err = none) :
    r.world.PATH = r.tempdir ++ colon :: w.PATH ∧
      osStat r.tempdir w = some (.sys .ENOENT) ∧
      r.world.tempDir = w.tempDir ∧
      isDir (r.world.fs r.tempdir) = true ∧
      (∀ q, isDir (w.fs q) = true → isDir (r.world.fs q) = true) ∧
      ∃ perm script, renderScript output status = some script ∧
        r.world.fs (pathJoin r.tempdir name) = some (.file perm script) := by
  obtain ⟨w1, w2, w3, w4, script, hloop, hmk, hopen, hscript, hwrite, hset⟩ :=
    add_inv fuel name output status w r h hr
  obtain ⟨g1, g2, g3, _, _, g6⟩ := statLoop_exit fuel _ _ _ _ hloop
  have e2 : sameEnv w2 w1 := by
    have := osMkdirAll_frame r.tempdir 0o777 w1
    rw [hmk] at this
    exact this
  have e3 : sameEnv w3 w2 := by
    have := osOpenFile_frame (pathJoin r.tempdir name) 0o755 w2
    rw [hopen] at this
    exact this
  have e4 : sameEnv w4 w3 := by
    have := osWrite_frame (pathJoin r.tempdir name) script w3
    rw [hwrite] at this
    exact this
  have e5 : r.world.fs = w4.fs ∧ r.world.tempDir = w4.tempDir := by
    have := osSetenvPATH_frame (r.tempdir ++ colon :: w4.PATH) w4
    rw [hset] at this
    exact this
  have e41 : sameEnv w4 w1 := sameEnv_trans e4 (sameEnv_trans e3 e2)
  obtain ⟨m1, m2⟩ := osMkdirAll_fs _ _ _ _ hmk
  obtain ⟨⟨perm1, o1⟩, o2⟩ := osOpenFile_fs _ _ _ _ hopen
  obtain ⟨x1, x2⟩ := osWrite_fs _ _ _ _ _ _ hwrite o1
  refine ⟨?_, g1, ?_, ?_, ?_, perm1, script, hscript, ?_⟩
  · rw [osSetenvPATH_success _ _ _ hset, e41.1, g2]
    rfl
  · rw [e5.2, e41.2.1, g6]
    rfl
  · rw [e5.1]
    exact x2 _ (o2 _ m1)
  · intro q hq
    rw [e5.1]
    apply x2 _ (o2 _ (m2 _ _))
    rw [g3]
    exact hq
  · rw [e5.1, x1]
    rfl

/-! ## More lemmas for the claims -/

theorem Outcome.eq_returned {α : Type} (o : Outcome α) (a : α) (h : o.result = some a) :
    o = .returned a o.world := by
  cases o with
  | returned b w =>
    simp only [Outcome.result, Option.some.injEq] at h
    subst h
    rfl
  | panicked w => simp [Outcome.result] at h

/-- A negative result of `strings.Index` means there is no occurrence. -/
theorem no_occurrence_of_stringsIndex (s d : GoString) (h : stringsIndex s d < 0) :
    ¬ ∃ a t, s = a ++ d ++ t := by
  rintro ⟨a, t, hs⟩
  have := (indexFrom_le_occurrence d a t 0).2
  unfold stringsIndex at h
  rw [hs] at h
  omega

/-- The loop of `add` exits as soon as a reading of the clock names an
absent path. -/
theorem statLoop_returns (fuel : Nat) (w : World) (k : Nat) (hk : k ≤ fuel)
    (hfresh : osStat (pathJoin (osTempDir w)
      ("commandmocker+".toList ++ w.clock (w.ticks + k))) w = some (.sys .ENOENT)) :
    (statLoop fuel (freshName w).1 (osStat (freshName w).1 (freshName w).2)
      (freshName w).2).isSome = true := by
  induction fuel generalizing w k with
  | zero =>
    have hk0 : k = 0 := by omega
    subst hk0
    unfold statLoop
    have : osStat (freshName w).1 (freshName w).2 = some (.sys .ENOENT) := hfresh
    rw [this]
    simp [osIsNotExist]
  | succ n ih =>
    unfold statLoop
    split
    · rfl
    · rename_i hne
      cases k with
      | zero =>
        exfalso
        apply hne
        have : osStat (freshName w).1 (freshName w).2 = some (.sys .ENOENT) := hfresh
        rw [this]
        rfl
      | succ j =>
        apply ih (freshName w).2 j (by omega)
        have e : (freshName w).2.ticks + j = w.ticks + (j + 1) := by
          simp only [freshName]
          omega
        rw [e]
        exact hfresh

/-- The function `add` returns (a directory, and `nil` or an error) as soon as a
reading of the clock names an absent path. -/
theorem add_returns (fuel : Nat) (name output : GoString) (status : Int) (w : World) (k : Nat)
    (hk : k ≤ fuel)
    (hfresh : osStat (pathJoin (osTempDir w)
      ("commandmocker+".toList ++ w.clock (w.ticks + k))) w = some (.sys .ENOENT)) :
    (add fuel name output status w).isSome = true := by
  have h := statLoop_returns fuel w k hk hfresh
  unfold add
  simp only
  cases hl : statLoop fuel (freshName w).1 (osStat (freshName w).1 (freshName w).2)
      (freshName w).2 with
  | none => rw [hl] at h; simp at h
  | some tw =>
    obtain ⟨tempdir, w1⟩ := tw
    simp only
    repeat' split
    all_goals rfl

/-- Erasing an occurrence of `x` lowers the number of its occurrences by
one. -/
theorem count_eraseIdx_of_getElem (l : List GoString) (k : Nat) (x : GoString)
    (h : l[k]? = some x) : (l.eraseIdx k).count x + 1 = l.count x := by
  induction l generalizing k with
  | nil => simp at h
  | cons y ys ih =>
    cases k with
    | zero =>
      simp only [List.getElem?_cons_zero, Option.some.injEq] at h
      subst h
      simp
    | succ j =>
      simp only [List.getElem?_cons_succ] at h
      have := ih j h
      simp only [List.eraseIdx_cons_succ, List.count_cons]
      omega

/-! ## The claims -/

set_option maxRecDepth 100000

/-- C1: when `add` (which `Add` calls with status 0 and `Error` with the
caller's status) returns a directory and no error, `PATH` is afterwards that
directory, a colon and the former value of `PATH`; so when the directory
holds no colon it is the first entry of `PATH` and the former entries follow
it in their order. -/
theorem C1_add_prepends (fuel : Nat) (name output : GoString) (status : Int) (w : World)
    (r : AddReturn) (h : add fuel name output status w = some r) (hr : r.err = none) :
    r.world.PATH = r.tempdir ++ colon :: w.PATH ∧
      (colon ∉ r.tempdir → entries r.world.PATH = r.tempdir :: entries w.PATH) ∧
      Add fuel name output w = add fuel name output 0 w ∧
      Error fuel name output status w = add fuel name output status w := by
  have hp := (add_success fuel name output status w r h hr).1
  refine ⟨hp, ?_, rfl, rfl⟩
  intro hc
  rw [hp]
  simp only [entries]
  rw [splitOn_append_sep, splitOn_of_not_mem colon _ hc]
  rfl

/-- C1 at `Add("git", "fake output")` in the sample world with
`PATH=/usr/bin:/bin`. -/
theorem C1_add_prepends_witness :
    Add 1 "git".toList "fake output".toList worldPlain = some gitAdded ∧
      gitAdded.tempdir = "/tmp/commandmocker+0".toList ∧
      gitAdded.world.PATH = "/tmp/commandmocker+0:/usr/bin:/bin".toList ∧
      entries gitAdded.world.PATH =
        ["/tmp/commandmocker+0".toList, "/usr/bin".toList, "/bin".toList] :=
  have h : add 1 "git".toList "fake output".toList 0 worldPlain = some gitAdded := rfl
  have c := C1_add_prepends 1 "git".toList "fake output".toList 0 worldPlain gitAdded h
    (by decide)
  ⟨h, by decide, c.1.trans (by decide), (c.2.1 (by decide)).trans (by decide)⟩

/-- C2, refuted as stated: with `PATH=/tmp/x:/tmp/x:/usr/bin`,
`Remove("/tmp/x")` returns `nil` and `/tmp/x` is still an entry of `PATH`. -/
theorem C2_counterexample :
    (Remove "/tmp/x".toList worldTwice).result = some none ∧
      "/tmp/x".toList ∈ entries (Remove "/tmp/x".toList worldTwice).world.PATH := by
  decide

/-- C2, amended: if `Remove(D)` returns `nil`, the first occurrence of `D`
in `PATH` is a whole entry (it begins `PATH` or follows a colon, and ends
`PATH` or precedes a colon) and no other entry of `PATH` is `D`, then `D` is
not among the entries of `PATH` afterwards. -/
theorem C2_remove_sole_entry (tempdir a tail : GoString) (w w1 : World)
    (h : Remove tempdir w = .returned none w1)
    (hp : w.PATH = a ++ tempdir ++ tail)
    (hi : stringsIndex w.PATH tempdir = (a.length : Int))
    (ha : a = [] ∨ a.getLast? = some colon)
    (ht : tail = [] ∨ tail.head? = some colon)
    (hone : (entries w.PATH).count tempdir = 1) :
    tempdir ∉ entries w1.PATH := by
  have hv := Remove_nil_valid tempdir w w1 h
  have hmem : tempdir ∈ entries w.PATH := by
    apply List.count_pos_iff.mp
    omega
  have hd : colon ∉ tempdir := not_mem_of_mem_splitOn colon _ _ hmem
  cases tail with
  | nil =>
    rw [Remove_panics tempdir a w hv (by simpa using hp) hi] at h
    simp at h
  | cons c rest =>
    have hc : c = colon := by
      rcases ht with ht | ht
      · simp at ht
      · simpa using ht
    subst hc
    obtain ⟨err, w2, hr, hpath, _⟩ := Remove_spliced tempdir a rest colon w hv hp hi
    rw [hr] at h
    simp only [Outcome.returned.injEq] at h
    obtain ⟨_, hw⟩ := h
    subst hw
    obtain ⟨hget, hnew⟩ := entries_splice a tempdir rest ha hd
    rw [hpath, hnew]
    rw [← hp]
    rw [← hp] at hget
    intro hin
    have hcount := count_eraseIdx_of_getElem (entries w.PATH) (a.count colon) tempdir hget
    have hpos : 0 < ((entries w.PATH).eraseIdx (a.count colon)).count tempdir :=
      List.count_pos_iff.mpr hin
    omega

/-- C2 amended, at `Remove("/tmp/x")` with `PATH=/usr/bin:/tmp/x:/bin`. -/
theorem C2_remove_sole_entry_witness :
    (Remove "/tmp/x".toList worldMiddle).result = some none ∧
      "/tmp/x".toList ∈ entries worldMiddle.PATH ∧
      "/tmp/x".toList ∉ entries (Remove "/tmp/x".toList worldMiddle).world.PATH :=
  ⟨by decide, by decide,
    C2_remove_sole_entry "/tmp/x".toList "/usr/bin:".toList ":/bin".toList worldMiddle
      (Remove "/tmp/x".toList worldMiddle).world
      (Outcome.eq_returned _ _ (by decide)) (by decide) (by decide) (by decide) (by decide)
      (by decide)⟩

/-- C3: in a world whose `PATH` is `D`, a colon and `p` (the state a
successful `add` that returned `D` leaves when `PATH` was `p`), with `D`
beginning with the temporary root, `Remove(D)` passes the validation, finds
`D` at index 0 and returns with `PATH` equal to `p`. -/
theorem C3_remove_undoes_add (tempdir p : GoString) (w : World)
    (hv : stringsHasPrefix tempdir (osTempDir w) = true)
    (hp : w.PATH = tempdir ++ colon :: p) :
    stringsIndex w.PATH tempdir = 0 ∧
      ∃ err w1, Remove tempdir w = .returned err w1 ∧ w1.PATH = p ∧
        err ≠ some (notTemporary tempdir) ∧ err ≠ some (notInPath tempdir) := by
  have hi : stringsIndex w.PATH tempdir = 0 := by
    rw [hp]
    exact stringsIndex_prepended tempdir p
  refine ⟨hi, ?_⟩
  obtain ⟨err, w1, h1, h2, _, h4, h5⟩ :=
    Remove_spliced tempdir [] p colon w hv (by simpa using hp) (by simpa using hi)
  exact ⟨err, w1, h1, by simpa using h2, h4, h5⟩

/-- C3 at the world that `Add("git", "fake output")` leaves when run with
`PATH=/usr/bin:/bin`: `Remove` of the returned directory returns `nil` and
`PATH` is `/usr/bin:/bin` again. -/
theorem C3_remove_undoes_add_witness :
    Add 1 "git".toList "fake output".toList worldPlain = some gitAdded ∧
      gitAdded.err = none ∧
      (Remove gitAdded.tempdir gitAdded.world).result = some none ∧
      ∃ err w1, Remove gitAdded.tempdir gitAdded.world = .returned err w1 ∧
        w1.PATH = worldPlain.PATH :=
  have c := C3_remove_undoes_add gitAdded.tempdir worldPlain.PATH gitAdded.world (by decide)
    (by decide)
  ⟨rfl, by decide, by decide, c.2.imp fun _ h => h.imp fun _ g => ⟨g.1, g.2.1⟩⟩

/-- C4, the failing input: the temporary root is `/tmp` and `/tmpfoo` does
not lie under it, yet `Remove("/tmpfoo")` with `PATH=/tmpfoo:/usr/bin`
passes the guard, returns `nil`, rewrites `PATH` to `/usr/bin` and deletes
the directory `/tmpfoo`. -/
theorem C4_sibling_removed :
    liesUnder worldSibling.tempDir "/tmpfoo".toList = false ∧
      isDir (worldSibling.fs "/tmpfoo".toList) = true ∧
      (Remove "/tmpfoo".toList worldSibling).result = some none ∧
      (Remove "/tmpfoo".toList worldSibling).world.PATH = "/usr/bin".toList ∧
      (Remove "/tmpfoo".toList worldSibling).world.fs "/tmpfoo".toList = none := by
  decide

/-- C5: when `directoryPath` passes the validation and does not occur in
`PATH`, `Remove` returns the error "<directoryPath> is not in $PATH" and
leaves the world (`PATH` and the file system) as it was. -/
theorem C5_remove_not_found (tempdir : GoString) (w : World)
    (hv : stringsHasPrefix tempdir (osTempDir w) = true)
    (hn : ¬ ∃ a t, w.PATH = a ++ tempdir ++ t) :
    Remove tempdir w =
      .returned (some (.errorsNew (tempdir ++ " is not in $PATH".toList))) w := by
  have hi : stringsIndex w.PATH tempdir = -1 := indexFrom_of_no_occurrence tempdir w.PATH 0 hn
  simp [Remove, hv, osGetenvPATH, hi, notInPath]

/-- C5 at `Remove("/tmp/x")` with `PATH=/usr/bin:/bin`. -/
theorem C5_remove_not_found_witness :
    Remove "/tmp/x".toList worldPlain =
      .returned (some (.errorsNew "/tmp/x is not in $PATH".toList)) worldPlain :=
  C5_remove_not_found "/tmp/x".toList worldPlain (by decide)
    (no_occurrence_of_stringsIndex _ _ (by decide))

/-- C6: for every output text and status the script rendered from the
template is the lines of `scriptLines` joined by newlines: the line
`output="<output>"` with the text verbatim, one `echo` line (with `>&2` when
the status is not zero), the `touch` line and last the line `exit <status>`
in decimal; a successful `add` leaves that text in the file it created, and
`Add` is `add` with status 0. -/
theorem C6_script (output : GoString) (status : Int) :
    renderScript output status = some (List.intercalate ['\n'] (scriptLines output status)) ∧
      (∀ fuel name w r, add fuel name output status w = some r → r.err = none →
        ∃ perm, r.world.fs (pathJoin r.tempdir name) =
          some (.file perm (List.intercalate ['\n'] (scriptLines output status)))) ∧
      ∀ fuel name w, Add fuel name output w = add fuel name output 0 w := by
  have hparse : templateParse source = some (lexTemplate source false []) := by decide
  have hlex : lexTemplate source false [] =
      [ .text "#!/bin/bash -e\n\noutput=\"".toList,
        .field "output".toList,
        .text "\"\n".toList,
        .ifField "status".toList,
        .text "\necho -n \"$\x7boutput\x7d\" >&2\n".toList,
        .elseTok,
        .text "\necho -n \"$\x7boutput\x7d\"\n".toList,
        .endTok,
        .text "\ntouch $(dirname $\x7b0\x7d)/.ran\nexit ".toList,
        .field "status".toList,
        .text "\n".toList ] := by decide
  have hprint : printValue (some (.int status)) = (toString status).toList := by
    cases status <;> rfl
  have hrender : renderScript output status =
      some (List.intercalate ['\n'] (scriptLines output status)) := by
    unfold renderScript
    rw [hparse, hlex]
    have ho : param output status "output".toList = some (.str output) := rfl
    have hs : param output status "status".toList = some (.int status) := rfl
    have ht : truth (some (.int status)) = decide (status ≠ 0) := rfl
    have hstr : printValue (some (.str output)) = output := rfl
    simp only [execute, ho, hs, ht, hprint, hstr, scriptLines]
    by_cases h0 : status = 0
    · simp [emit, h0, List.intercalate, List.intersperse]
    · simp [emit, h0, List.intercalate, List.intersperse]
  refine ⟨hrender, ?_, fun _ _ _ => rfl⟩
  intro fuel name w r h hr
  obtain ⟨_, _, _, _, _, perm, script, hscript, hfile⟩ :=
    add_success fuel name output status w r h hr
  rw [hrender] at hscript
  simp only [Option.some.injEq] at hscript
  exact ⟨perm, by rw [hfile, hscript]⟩

/-- C6 at `Error("git", "boom", 1)` and at `Add("git", "fake output")`: the
rendered texts, and the file that `Add` leaves. -/
theorem C6_script_witness :
    renderScript "boom".toList 1 = some
        ("#!/bin/bash -e\n\noutput=\"boom\"\n\necho -n \"$\x7boutput\x7d\" >&2\n\n" ++
          "touch $(dirname $\x7b0\x7d)/.ran\nexit 1\n").toList ∧
      renderScript "fake output".toList 0 = some
        ("#!/bin/bash -e\n\noutput=\"fake output\"\n\necho -n \"$\x7boutput\x7d\"\n\n" ++
          "touch $(dirname $\x7b0\x7d)/.ran\nexit 0\n").toList ∧
      ∃ perm, gitAdded.world.fs "/tmp/commandmocker+0/git".toList = some (.file perm
        ("#!/bin/bash -e\n\noutput=\"fake output\"\n\necho -n \"$\x7boutput\x7d\"\n\n" ++
          "touch $(dirname $\x7b0\x7d)/.ran\nexit 0\n").toList) :=
  have hs : List.intercalate ['\n'] (scriptLines "fake output".toList 0) =
      ("#!/bin/bash -e\n\noutput=\"fake output\"\n\necho -n \"$\x7boutput\x7d\"\n\n" ++
        "touch $(dirname $\x7b0\x7d)/.ran\nexit 0\n").toList := by decide
  ⟨(C6_script "boom".toList 1).1.trans (by decide),
    (C6_script "fake output".toList 0).1.trans (by rw [hs]),
    ((C6_script "fake output".toList 0).2.1 1 "git".toList worldPlain gitAdded rfl
      (by decide)).imp fun _ h => h.trans (by rw [hs])⟩

/-- C7: `Ran(directoryPath)` is false exactly when the `stat` of
`path.Join(directoryPath, ".ran")` fails with a does-not-exist error, true
exactly when the file exists or the `stat` fails with another error, and it
leaves the world (file system and `PATH`) as it was. -/
theorem C7_ran (tempdir : GoString) (w : World) :
    ((Ran tempdir w).1 = false ↔
        osIsNotExist (osStat (pathJoin tempdir ".ran".toList) w) = true) ∧
      ((Ran tempdir w).1 = true ↔
        (osStat (pathJoin tempdir ".ran".toList) w = none ∨
          ∃ e, osStat (pathJoin tempdir ".ran".toList) w = some e ∧
            osIsNotExist (some e) = false)) ∧
      (osIsNotExist (osStat (pathJoin tempdir ".ran".toList) w) = true ↔
        osStat (pathJoin tempdir ".ran".toList) w = some (.sys .ENOENT)) ∧
      (Ran tempdir w).2 = w := by
  have key : ∀ e : Option GoError, osIsNotExist e = true ↔ e = some (.sys .ENOENT) := by
    intro e
    constructor
    · intro he
      unfold osIsNotExist at he
      split at he
      · rfl
      · simp at he
    · intro he
      subst he
      rfl
  refine ⟨?_, ?_, key _, rfl⟩
  · simp only [Ran]
    cases h : osStat (pathJoin tempdir ".ran".toList) w with
    | none => simp [osIsNotExist]
    | some e => simp
  · simp only [Ran]
    cases h : osStat (pathJoin tempdir ".ran".toList) w with
    | none => simp
    | some e => simp

/-- C7 in the sample file system: `Ran("/tmp/x")` is false, since
`/tmp/x/.ran` is absent. -/
theorem C7_ran_witness :
    (Ran "/tmp/x".toList worldPlain).1 = false ∧
      osStat "/tmp/x/.ran".toList worldPlain = some (.sys .ENOENT) :=
  ⟨(C7_ran "/tmp/x".toList worldPlain).1.mpr (by decide), by decide⟩

/-- C8: the directory a successful `add` returns was absent before the call
(`stat` reported that it does not exist); so of two successful calls in a
row (as two calls of `Add`, whatever their names and outputs) the second
returns a directory other than the first, and both are directories
afterwards. -/
theorem C8_fresh_directories (f1 f2 : Nat) (n1 o1 n2 o2 : GoString) (s1 s2 : Int) (w : World)
    (r1 r2 : AddReturn)
    (h1 : add f1 n1 o1 s1 w = some r1) (e1 : r1.err = none)
    (h2 : add f2 n2 o2 s2 r1.world = some r2) (e2 : r2.err = none) :
    osStat r1.tempdir w = some (.sys .ENOENT) ∧
      osStat r2.tempdir r1.world = some (.sys .ENOENT) ∧
      r1.tempdir ≠ r2.tempdir ∧
      isDir (r2.world.fs r1.tempdir) = true ∧ isDir (r2.world.fs r2.tempdir) = true := by
  obtain ⟨_, a2, _, a4, _, _⟩ := add_success f1 n1 o1 s1 w r1 h1 e1
  obtain ⟨_, b2, _, b4, b5, _⟩ := add_success f2 n2 o2 s2 r1.world r2 h2 e2
  refine ⟨a2, b2, ?_, b5 _ a4, b4⟩
  intro heq
  rw [← heq] at b2
  unfold osStat at b2
  split at b2
  · simp at b2
  · split at b2
    · simp at b2
    · rename_i hnone
      rw [hnone] at a4
      simp [isDir] at a4

/-- C8 at two calls `Add("git", "fake output")` in a row, the clock read
twice within the same second: the directories are `/tmp/commandmocker+0` and
`/tmp/commandmocker+1`. -/
theorem C8_fresh_directories_witness :
    Add 1 "git".toList "fake output".toList worldPlain = some gitAdded ∧
      Add 1 "git".toList "fake output".toList gitAdded.world = some gitAddedAgain ∧
      gitAdded.tempdir = "/tmp/commandmocker+0".toList ∧
      gitAddedAgain.tempdir = "/tmp/commandmocker+1".toList ∧
      gitAdded.tempdir ≠ gitAddedAgain.tempdir ∧
      isDir (gitAddedAgain.world.fs gitAdded.tempdir) = true ∧
      isDir (gitAddedAgain.world.fs gitAddedAgain.tempdir) = true :=
  have c := C8_fresh_directories 1 1 "git".toList "fake output".toList "git".toList
    "fake output".toList 0 0 worldPlain gitAdded gitAddedAgain rfl (by decide) rfl (by decide)
  ⟨rfl, rfl, by decide, by decide, c.2.2.1, c.2.2.2.1, c.2.2.2.2⟩

/-- C9, the failing input: with `PATH=/usr/bin:/tmp/x`, `Remove("/tmp/x")`
passes the validation and finds `/tmp/x` at index 9, where
`index + len(directoryPath) + 1` is 16 and `len(PATH)` is 15: the slice
expression is out of range and `Remove` panics instead of returning. -/
theorem C9_last_entry_panics :
    stringsHasPrefix "/tmp/x".toList (osTempDir worldLast) = true ∧
      stringsIndex worldLast.PATH "/tmp/x".toList = 9 ∧
      9 + "/tmp/x".toList.length + 1 = 16 ∧ worldLast.PATH.length = 15 ∧
      (Remove "/tmp/x".toList worldLast).result = none := by
  decide

/-- C10: when `directoryPath` passes the validation and its first occurrence
in `PATH` begins an entry (it begins `PATH` or follows a colon), is a whole
entry (it holds no colon) and is followed by a colon, `Remove` returns with
a `PATH` whose entries are the former entries with that one entry deleted,
the others unchanged and in their order. -/
theorem C10_remove_whole_entry (tempdir a rest : GoString) (w : World)
    (hv : stringsHasPrefix tempdir (osTempDir w) = true)
    (hp : w.PATH = a ++ tempdir ++ colon :: rest)
    (hi : stringsIndex w.PATH tempdir = (a.length : Int))
    (ha : a = [] ∨ a.getLast? = some colon)
    (hd : colon ∉ tempdir) :
    ∃ err w1, Remove tempdir w = .returned err w1 ∧
      (entries w.PATH)[a.count colon]? = some tempdir ∧
      entries w1.PATH = (entries w.PATH).eraseIdx (a.count colon) := by
  obtain ⟨err, w1, h1, h2, _⟩ := Remove_spliced tempdir a rest colon w hv hp hi
  obtain ⟨g1, g2⟩ := entries_splice a tempdir rest ha hd
  refine ⟨err, w1, h1, ?_, ?_⟩
  · rw [hp]
    exact g1
  · rw [h2, hp]
    exact g2

/-- C10 at `Remove("/tmp/x")` with `PATH=/usr/bin:/tmp/x:/bin`: the entries
`/usr/bin`, `/tmp/x`, `/bin` become `/usr/bin`, `/bin`. -/
theorem C10_remove_whole_entry_witness :
    entries worldMiddle.PATH = ["/usr/bin".toList, "/tmp/x".toList, "/bin".toList] ∧
      entries (Remove "/tmp/x".toList worldMiddle).world.PATH =
        ["/usr/bin".toList, "/bin".toList] ∧
      ∃ err w1, Remove "/tmp/x".toList worldMiddle = .returned err w1 ∧
        (entries worldMiddle.PATH)[1]? = some "/tmp/x".toList ∧
        entries w1.PATH = (entries worldMiddle.PATH).eraseIdx 1 :=
  ⟨by decide, by decide,
    C10_remove_whole_entry "/tmp/x".toList "/usr/bin:".toList "/bin".toList worldMiddle
      (by decide) (by decide) (by decide) (by decide) (by decide)⟩

end Commandmocker
